import Mathlib

/-!
Verification development for the pushcart-deploy configuration core.

The Python modules `validation.py`, `configuration.py` and `metadata.py` are
shallowly embedded below.  Python dictionaries and lists of heterogeneous
values are modelled by the mutually inductive types `PyVal` / `PyList` /
`PyDict`; machine-level concerns (I/O, logging, async scheduling) are
modelled by explicit environment records and `Except`-valued functions.
Pydantic v1 dataclass semantics matter in two places and are modelled
explicitly where used:
  * validation runs in `__post_init__` on the full field dictionary, so a
    `pre=True` root validator always sees every declared field name, with
    declared defaults filled in for arguments that were not passed;
  * a field validator sees the already-validated field value.
-/

namespace Pushcart

/-- Python dictionary keys (the program only ever uses strings, ints and
bools as keys). -/
inductive PyKey where
  | str (s : String)
  | int (n : Int)
  | bool (b : Bool)
deriving DecidableEq

mutual
/-- A Python value: scalars, `None`, lists and dicts. -/
inductive PyVal where
  | str (s : String)
  | int (n : Int)
  | bool (b : Bool)
  | pynone
  | list (xs : PyList)
  | dict (kvs : PyDict)

/-- A Python list of `PyVal`s. -/
inductive PyList where
  | nil
  | cons (hd : PyVal) (tl : PyList)

/-- A Python dict, as an ordered association sequence. -/
inductive PyDict where
  | nil
  | cons (k : PyKey) (v : PyVal) (tl : PyDict)
end

/-- Convert an embedded Python list to a Lean list. -/
def PyList.toList : PyList → List PyVal
  | .nil => []
  | .cons v tl => v :: tl.toList

/-- Convert an embedded Python dict to a Lean association list. -/
def PyDict.toList : PyDict → List (PyKey × PyVal)
  | .nil => []
  | .cons k v tl => (k, v) :: tl.toList

/-- The values of an embedded Python dict, in order (`dict.values()`). -/
def PyDict.values : PyDict → List PyVal
  | .nil => []
  | .cons _ v tl => v :: tl.values

/-- Python truth value of a `PyVal` (`bool(obj)`): `None`, `False`, `0`,
empty strings and empty collections are falsy, everything else is truthy. -/
def pyTruthy : PyVal → Bool
  | .str s => s ≠ ""
  | .int n => n ≠ 0
  | .bool b => b
  | .pynone => false
  | .list .nil => false
  | .list (.cons _ _) => true
  | .dict .nil => false
  | .dict (.cons _ _ _) => true

/-- Python `isinstance(v, bool)`. -/
def pyIsBool : PyVal → Bool
  | .bool _ => true
  | _ => false

/-- Python `isinstance(v, int)`: in Python, `bool` is a subclass of `int`,
so both embedded ints and bools satisfy this test. -/
def pyIsInt : PyVal → Bool
  | .int _ => true
  | .bool _ => true
  | _ => false

/-- Whether a value is the Python `None`. -/
def pyIsNone : PyVal → Bool
  | .pynone => true
  | _ => false

/-- Python `str.strip()` with no argument: remove leading and trailing
whitespace.  Implemented over the character list so that it evaluates
inside the kernel. -/
def pyStrip (s : String) : String :=
  ⟨((s.data.dropWhile Char.isWhitespace).reverse.dropWhile Char.isWhitespace).reverse⟩

/-- Python `k.replace(".", "_")`: with a single-character pattern and
replacement this is a character-wise map. -/
def pyReplaceDotUnderscore (s : String) : String :=
  ⟨s.data.map (fun c => if c = '.' then '_' else c)⟩

/-- Three-way lexicographic comparison of character sequences by code
point — Python's string comparison. -/
def pyCmpChars : List Char → List Char → Ordering
  | [], [] => .eq
  | [], _ :: _ => .lt
  | _ :: _, [] => .gt
  | a :: as, b :: bs =>
      if a.toNat < b.toNat then .lt
      else if b.toNat < a.toNat then .gt
      else pyCmpChars as bs

/-- Python string comparison. -/
def pyStrCmp (a b : String) : Ordering := pyCmpChars a.data b.data

/-- Python `a <= b` on strings. -/
def pyStrLE (a b : String) : Bool := pyStrCmp a b ≠ .gt

/-- Python `a < b` on strings. -/
def pyStrLT (a b : String) : Bool := pyStrCmp a b == .lt

/-- Python tuple comparison on string pairs, lexicographic. -/
def pyPairCmp (a b : String × String) : Ordering :=
  (pyStrCmp a.1 b.1).then (pyStrCmp a.2 b.2)

/-- Python `a <= b` on string pairs. -/
def pyPairLE (a b : String × String) : Bool :=
  pyPairCmp a b ≠ .gt

/-- `pyStrLE` as a relation. -/
def strle (a b : String) : Prop := pyStrLE a b = true

/-- `pyPairLE` as a relation. -/
def pairle (a b : String × String) : Prop := pyPairLE a b = true

/-!
## `validation.py`: the empty-value sanitizer
-/

/-- Embedding of `validation._is_empty`: a whitespace-only string is empty;
a dict or list none of whose members is truthy, a bool, or an int is empty;
every other value (including `None`, ints, bools) is not empty. -/
def _is_empty (obj : PyVal) : Bool :=
  (match obj with | .str s => pyStrip s == "" | _ => false)
  || (match obj with
      | .dict kvs =>
          !kvs.values.any pyTruthy
            && !kvs.values.any pyIsBool
            && !kvs.values.any pyIsInt
      | _ => false)
  || (match obj with
      | .list xs =>
          !xs.toList.any pyTruthy
            && !xs.toList.any pyIsBool
            && !xs.toList.any pyIsInt
      | _ => false)

/-- Errors the sanitizer can raise: calling `.replace` on a non-string
dict key raises `AttributeError`; a non-dict, non-list top-level argument
raises `TypeError`. -/
inductive SanitizeError where
  | attributeError
  | typeError
deriving DecidableEq

/-- Drop the entries of a dict whose value is `None`
(`{k: v for k, v in fields.items() if v is not None}`). -/
def PyDict.dropNoneValues : PyDict → PyDict
  | .nil => .nil
  | .cons k v tl =>
      if pyIsNone v then tl.dropNoneValues else .cons k v tl.dropNoneValues

/-- Drop the elements of a list that are `None`
(`[e for e in elements if e is not None]`). -/
def PyList.dropNoneElems : PyList → PyList
  | .nil => .nil
  | .cons v tl =>
      if pyIsNone v then tl.dropNoneElems else .cons v tl.dropNoneElems

mutual
/-- The element expression shared by both comprehensions in the source:
`None if _is_empty(v) else _santize_empty_fields(v, drop_empty) if
isinstance(v, dict) else _sanitize_empty_elements(v, drop_empty) if
isinstance(v, list) else v`.  The recursive calls to the two full
sanitizer functions (comprehension plus `drop_empty` filtering) are
inlined here so the recursion is structural; the named wrappers below and
the lemmas `sanitizeValue_dict` / `sanitizeValue_list` recover the
call-by-name shape of the source. -/
def sanitizeValue (v : PyVal) (drop_empty : Bool) : Except SanitizeError PyVal :=
  if _is_empty v then .ok .pynone
  else
    match v with
    | .dict kvs => do
        let fields ← sanitizeFieldsGo kvs drop_empty
        .ok (.dict (if drop_empty then fields.dropNoneValues else fields))
    | .list xs => do
        let elements ← sanitizeElemsGo xs drop_empty
        .ok (.list (if drop_empty then elements.dropNoneElems else elements))
    | v => .ok v
termination_by structural v

/-- The list comprehension body of `_sanitize_empty_elements`, before the
optional `drop_empty` filtering. -/
def sanitizeElemsGo (xs : PyList) (drop_empty : Bool) : Except SanitizeError PyList :=
  match xs with
  | .nil => .ok .nil
  | .cons v tl => do
      let e ← sanitizeValue v drop_empty
      let rest ← sanitizeElemsGo tl drop_empty
      .ok (.cons e rest)
termination_by structural xs

/-- The dict comprehension body of `_santize_empty_fields`, before the
optional `drop_empty` filtering.  The key expression `k.replace(".", "_")`
is evaluated first (Python ≥ 3.8 evaluates the key before the value in a
dict comprehension); it raises `AttributeError` when `k` is not a string. -/
def sanitizeFieldsGo (kvs : PyDict) (drop_empty : Bool) : Except SanitizeError PyDict :=
  match kvs with
  | .nil => .ok .nil
  | .cons k v tl => do
      let k' ←
        match k with
        | .str s => Except.ok (pyReplaceDotUnderscore s)
        | _ => Except.error SanitizeError.attributeError
      let e ← sanitizeValue v drop_empty
      let rest ← sanitizeFieldsGo tl drop_empty
      .ok (.cons (.str k') e rest)
termination_by structural kvs
end

/-- Embedding of `validation._sanitize_empty_elements`. -/
def _sanitize_empty_elements (xs : PyList) (drop_empty : Bool) :
    Except SanitizeError PyList := do
  let elements ← sanitizeElemsGo xs drop_empty
  if drop_empty then .ok elements.dropNoneElems else .ok elements

/-- Embedding of `validation._santize_empty_fields` (sic: the misspelling
is the source function's name). -/
def _santize_empty_fields (kvs : PyDict) (drop_empty : Bool) :
    Except SanitizeError PyDict := do
  let fields ← sanitizeFieldsGo kvs drop_empty
  if drop_empty then .ok fields.dropNoneValues else .ok fields

/-- Embedding of `validation.sanitize_empty_objects`: dispatches on the
top-level type and raises `TypeError` for anything that is neither a dict
nor a list. -/
def sanitize_empty_objects (obj : PyVal) (drop_empty : Bool) :
    Except SanitizeError PyVal :=
  match obj with
  | .dict kvs => do
      let fs ← _santize_empty_fields kvs drop_empty
      .ok (.dict fs)
  | .list xs => do
      let es ← _sanitize_empty_elements xs drop_empty
      .ok (.list es)
  | _ => .error .typeError

/-- Build an embedded Python list from a Lean list. -/
def PyList.ofList : List PyVal → PyList
  | [] => .nil
  | v :: tl => .cons v (PyList.ofList tl)

/-!
## `configuration.py`: schema entities and cross-field validators
-/

/-- A validated `Validation` object: `validation_rule` a non-empty string,
`validation_action` normalized to upper case (LOG, DROP or FAIL).  The
validators modelled below run on already field-validated objects. -/
structure Validation where
  validation_rule : String
  validation_action : String
deriving DecidableEq

/-- Embedding of `itertools.groupby`: split a list into maximal runs of
consecutive elements sharing the same key, pairing each run with its key. -/
def pyGroupRuns {α κ : Type} [DecidableEq κ] (key : α → κ) : List α → List (κ × List α)
  | [] => []
  | a :: tl =>
      match pyGroupRuns key tl with
      | [] => [(key a, [a])]
      | (k, g) :: rest =>
          if key a = k then (k, a :: g) :: rest
          else (key a, [a]) :: (k, g) :: rest

/-- The sort/group key used by `_get_multiple_validations_with_same_rule`:
`str(v["validation_rule"]).strip()`. -/
def validationRuleKey (v : Validation) : String := pyStrip v.validation_rule

/-- The comparison `sorted(validations, key=...)` sorts by. -/
def validationLE (a b : Validation) : Prop :=
  pyStrLE (validationRuleKey a) (validationRuleKey b) = true

instance : DecidableRel validationLE := fun a b => by
  unfold validationLE; infer_instance

/-- Embedding of `configuration._get_multiple_validations_with_same_rule`:
sort the validations by trimmed rule (Python `sorted` is a stable sort),
group consecutive equal trimmed rules, map each group to its list of
actions, and keep only the groups with more than one entry. -/
def _get_multiple_validations_with_same_rule (validations : List Validation) :
    List (String × List String) :=
  let validation_groups :=
    (pyGroupRuns validationRuleKey (validations.insertionSort validationLE)).map
      (fun g => (g.1, g.2.map (·.validation_action)))
  validation_groups.filter (fun g => 1 < g.2.length)

/-- Embedding of the `check_multiple_validations_with_same_rule` field
validator shared verbatim by `Source`, `Transformation` and `Destination`:
`if value and (fails := _get_multiple_validations_with_same_rule(value)):
raise ValueError(...)`.  The error carries the offending groups (the
Python message interpolates them into a string). -/
def check_multiple_validations_with_same_rule (value : List Validation) :
    Except (List (String × List String)) (List Validation) :=
  if !value.isEmpty && !(_get_multiple_validations_with_same_rule value).isEmpty then
    .error (_get_multiple_validations_with_same_rule value)
  else
    .ok value

/-- A validated `ClusterAutoscale` object. -/
structure ClusterAutoscale where
  min_workers : Int
  max_workers : Int
  mode : String
deriving DecidableEq

/-- The `values` dictionary seen by `Cluster`'s `pre=True` root validator
for the two fields it consults.  Under pydantic v1 dataclass construction
the dictionary always contains both field names, holding the declared
default `None` when the argument was not passed, so `values["autoscale"]`
and `values["num_workers"]` never raise. -/
structure ClusterValues where
  num_workers : Option Int := none
  autoscale : Option ClusterAutoscale := none
deriving DecidableEq

/-- Python truthiness of the `num_workers` value: `None` and `0` are
falsy, any other int is truthy. -/
def truthyNumWorkers : Option Int → Bool
  | some n => n ≠ 0
  | none => false

/-- Python truthiness of the `autoscale` value: any object is truthy,
`None` is falsy. -/
def truthyAutoscale : Option ClusterAutoscale → Bool
  | some _ => true
  | none => false

/-- Embedding of
`Cluster.check_only_one_of_autoscale_or_num_workers_defined`:
`if not any(values[v] for v in ["autoscale", "num_workers"]): raise ...`
then `if all(values[t] for t in ["autoscale", "num_workers"]): raise ...`. -/
def Cluster.check_only_one_of_autoscale_or_num_workers_defined
    (values : ClusterValues) : Except String ClusterValues :=
  if !(truthyAutoscale values.autoscale || truthyNumWorkers values.num_workers) then
    .error "No cluster defined. Please provide either autoscale or a num_workers"
  else if truthyAutoscale values.autoscale && truthyNumWorkers values.num_workers then
    .error "Only one of autoscale or num_workers allowed"
  else
    .ok values

/-- The three stage-list field names of `Configuration`. -/
def stageNames : List String := ["sources", "transformations", "destinations"]

/-- Embedding of `Configuration.check_at_least_one_stage_defined`:
`if not any(v in ["sources", "transformations", "destinations"] for v in
values)` — iterating over a dict iterates over its keys, so the check
tests only whether one of the three stage names occurs among the keys of
`values`; the associated values are never consulted. -/
def Configuration.check_at_least_one_stage_defined
    (values : List (String × PyVal)) : Except String (List (String × PyVal)) :=
  if !(values.map Prod.fst).any (fun v => stageNames.contains v) then
    .error "No stage definition found. Please define at least one of: sources, transformations, destinations"
  else
    .ok values

/-- A raw `sources` entry, restricted to the field consulted by
`check_all_dlt_target_objects_are_unique` (`source["target"]`). -/
structure RawSource where
  target : String
deriving DecidableEq

/-- A raw `transformations` entry, restricted to the fields consulted by
`check_all_dlt_target_objects_are_unique` (`transformation["target"]` and
`transformation.get("sql_query")`). -/
structure RawTransformation where
  target : String
  sql_query : Option String := none
deriving DecidableEq

/-- A raw `destinations` entry, restricted to the field consulted by
`check_all_dlt_target_objects_are_unique` (`destination["target"]`). -/
structure RawDestination where
  target : String
deriving DecidableEq

/-- The stage lists of a raw `Configuration` candidate, with the
`values.get(..., [])` defaults of the uniqueness validator.  Under
pydantic v1 dataclass construction the unset stage fields are the
declared `default_factory=list` empty lists. -/
structure RawConfigValues where
  clusters : Option (List ClusterValues) := none
  sources : List RawSource := []
  transformations : List RawTransformation := []
  destinations : List RawDestination := []
deriving DecidableEq

/-- Python truthiness of `transformation.get("sql_query")`: absent keys
and empty strings are falsy. -/
def hasTruthySqlQuery (t : RawTransformation) : Bool :=
  match t.sql_query with
  | some s => s ≠ ""
  | none => false

/-- The `target_values` list assembled by
`check_all_dlt_target_objects_are_unique`: source targets, targets of
transformations whose `sql_query` is truthy, and destination targets,
concatenated in that order. -/
def dltTargetValues (values : RawConfigValues) : List String :=
  values.sources.map (·.target)
    ++ (values.transformations.filter hasTruthySqlQuery).map (·.target)
    ++ values.destinations.map (·.target)

/-- Embedding of `Configuration.check_all_dlt_target_objects_are_unique`:
`duplicates = [value for value in set(target_values) if
target_values.count(value) > 1]`; raise when non-empty.  The error carries
the duplicate values (the Python message joins them into a string). -/
def Configuration.check_all_dlt_target_objects_are_unique
    (values : RawConfigValues) : Except (List String) RawConfigValues :=
  let target_values := dltTargetValues values
  let duplicates := target_values.dedup.filter (fun v => 1 < target_values.count v)
  if !duplicates.isEmpty then .error duplicates else .ok values

/-- PyVal encoding of a raw source entry, as it appears in the
construction-time `values` dictionary. -/
def RawSource.toPy (s : RawSource) : PyVal :=
  .dict (.cons (.str "target") (.str s.target) .nil)

/-- PyVal encoding of a raw transformation entry. -/
def RawTransformation.toPy (t : RawTransformation) : PyVal :=
  .dict (.cons (.str "target") (.str t.target)
    (match t.sql_query with
     | some q => .cons (.str "sql_query") (.str q) .nil
     | none => .nil))

/-- PyVal encoding of a raw destination entry. -/
def RawDestination.toPy (d : RawDestination) : PyVal :=
  .dict (.cons (.str "target") (.str d.target) .nil)

/-- PyVal encoding of a cluster entry (the fields modelled here). -/
def ClusterValues.toPy (c : ClusterValues) : PyVal :=
  .dict (.cons (.str "num_workers")
      (match c.num_workers with | some n => .int n | none => .pynone)
    (.cons (.str "autoscale")
      (match c.autoscale with | some _ => .dict .nil | none => .pynone) .nil))

/-- The full field dictionary a pydantic v1 dataclass passes to its
`pre=True` root validators: every declared field name is present, with
defaults filled in for unpassed arguments. -/
def RawConfigValues.toConstructionDict (c : RawConfigValues) : List (String × PyVal) :=
  [("clusters",
      match c.clusters with
      | some cs => .list (PyList.ofList (cs.map ClusterValues.toPy))
      | none => .pynone),
   ("sources", .list (PyList.ofList (c.sources.map RawSource.toPy))),
   ("transformations", .list (PyList.ofList (c.transformations.map RawTransformation.toPy))),
   ("destinations", .list (PyList.ofList (c.destinations.map RawDestination.toPy)))]

/-- A structured `Configuration` validation failure. -/
inductive ConfigError where
  | noStageDefinition (msg : String)
  | duplicateTargets (dups : List String)
deriving DecidableEq

/-- Constructing a `Configuration` from a candidate: the two `pre=True`
root validators run in declaration order on the construction-time field
dictionary (`check_at_least_one_stage_defined`, then
`check_all_dlt_target_objects_are_unique`); a raised `ValueError` aborts
construction. -/
def Configuration.validate (c : RawConfigValues) : Except ConfigError RawConfigValues :=
  match Configuration.check_at_least_one_stage_defined c.toConstructionDict with
  | .error m => .error (.noStageDefinition m)
  | .ok _ =>
      match Configuration.check_all_dlt_target_objects_are_unique c with
      | .error d => .error (.duplicateTargets d)
      | .ok _ => .ok c

/-- Embedding of the validation loop of
`Metadata._validate_pipeline_configs` over the already-grouped candidate
maps: `for pipeline_config in grouped_pipeline_configs:
validated_pipeline_configs.append(Configuration(**pipeline_config))`.
There is no exception handler around the loop, so a validation failure
propagates immediately: candidates after the failing one are not visited
and no list is returned. -/
def validatePipelineConfigs (grouped : List RawConfigValues) :
    Except ConfigError (List RawConfigValues) :=
  grouped.mapM Configuration.validate

/-!
## `configuration.py`: `get_config_from_file`
-/

/-- The exceptions the `try` block of `get_config_from_file` can raise:
one per `except` clause of the source, plus `UnicodeDecodeError` (a
`ValueError` that the text-mode `aiofiles` read raises for a file whose
bytes cannot be decoded; it is a subclass of none of the caught
exception classes). -/
inductive LoaderError where
  | fileNotFoundError
  | osError
  | jsonDecodeError
  | yamlError
  | tomlDecodeError
  | typeError
  | runtimeError (msg : String)
  | unicodeDecodeError
deriving DecidableEq

/-- The observable behavior of one settings file: whether the path
exists, its extension, and the outcome of opening and reading it.  A
read may fail with `FileNotFoundError` (the file vanished after the
`exists()` test), `OSError`, `UnicodeDecodeError` (the file's bytes do
not decode in the default text encoding), or a `RuntimeError` from the
async runtime. -/
structure SettingsFile where
  pathExists : Bool
  suffix : String
  readResult : Except LoaderError String

/-- The external parsers: `json.loads`, `tomli.loads`, `yaml.safe_load`.
Each either returns a value or raises its library's decode error (modelled
as `Except.error ()` and mapped to the matching `LoaderError` at the call
site). -/
structure ParserEnv where
  jsonLoads : String → Except Unit PyVal
  tomliLoads : String → Except Unit PyVal
  yamlSafeLoad : String → Except Unit PyVal

/-- The `loaders` defaultdict: a parser for `.json`, `.toml`, `.yaml` and
`.yml`, and `None` (the defaultdict's default) for every other extension. -/
def loaders (env : ParserEnv) (ext : String) :
    Option (String → Except LoaderError PyVal) :=
  if ext = ".json" then some (fun s => (env.jsonLoads s).mapError (fun _ => .jsonDecodeError))
  else if ext = ".toml" then some (fun s => (env.tomliLoads s).mapError (fun _ => .tomlDecodeError))
  else if ext = ".yaml" then some (fun s => (env.yamlSafeLoad s).mapError (fun _ => .yamlError))
  else if ext = ".yml" then some (fun s => (env.yamlSafeLoad s).mapError (fun _ => .yamlError))
  else none

/-- The `try` block of `get_config_from_file`: if the path exists, read
the file and apply `loaders[ext]` to its contents (`loaders[ext]` is
`None` for an unsupported extension, and calling `None` raises
`TypeError`); if the path does not exist the function falls through and
returns `None`. -/
def get_config_from_file_body (env : ParserEnv) (f : SettingsFile) :
    Except LoaderError (Option PyVal) :=
  if f.pathExists then
    match f.readResult with
    | .error e => .error e
    | .ok contents =>
        match loaders env f.suffix with
        | some parse => (parse contents).map some
        | none => .error .typeError
  else
    .ok none

/-- Embedding of `configuration.get_config_from_file`: the `try` block
wrapped in its `except` clauses.  Each clause logs a warning and lets the
function return `None`; the clauses cover `FileNotFoundError`, `OSError`,
the three parser decode errors, `TypeError` and `RuntimeError`.  A
`UnicodeDecodeError` raised while reading the file matches no clause and
propagates to the caller. -/
def get_config_from_file (env : ParserEnv) (f : SettingsFile) :
    Except LoaderError (Option PyVal) :=
  match get_config_from_file_body env f with
  | .ok v => .ok v
  | .error .fileNotFoundError => .ok none
  | .error .osError => .ok none
  | .error .jsonDecodeError => .ok none
  | .error .yamlError => .ok none
  | .error .tomlDecodeError => .ok none
  | .error .typeError => .ok none
  | .error (.runtimeError _) => .ok none
  | .error .unicodeDecodeError => .error .unicodeDecodeError

/-!
## `metadata.py`: CSV-driven transformation enrichment
-/

/-- A cell value inside a transformation entry: CSV cells are strings; the
enrichment step rewrites `column_order` to an int or to Python `None`. -/
inductive CellV where
  | s (v : String)
  | i (n : Int)
  | noneV
deriving DecidableEq

/-- A raw transformation entry (a Python dict), restricted to the keys the
enrichment step reads or writes.  A field of `none` models an absent key;
`CellV.noneV` models a key present with value `None`.  Record equality
matches Python dict equality for this fixed key schema (dict comparison
ignores key order). -/
structure TEntry where
  origin : Option String := none
  target : Option String := none
  into : Option String := none
  config : Option String := none
  column_order : Option CellV := none
  validation_rule : Option String := none
  validation_action : Option String := none
  validations : Option (List Validation) := none
deriving DecidableEq

/-- Exceptions of the enrichment step: subscripting a dict at an absent
key raises `KeyError`. -/
inductive EnrichError where
  | keyError (key : String)
deriving DecidableEq

/-- Python truthiness of an optional string (`d.get(k)`): absent keys and
empty strings are falsy. -/
def truthyOptStr : Option String → Bool
  | some s => s ≠ ""
  | none => false

/-- The decimal value of a digit string (`int(...)` on an `isdigit`
string). -/
def digitsToNat (cs : List Char) : Nat :=
  cs.foldl (fun a c => a * 10 + (c.toNat - '0'.toNat)) 0

/-- Python `str(...)` of a cell value. -/
def cellStr : CellV → String
  | .s v => v
  | .i n => toString n
  | .noneV => "None"

/-- Python `str.isdigit()`: non-empty and all characters decimal digits. -/
def pyIsDigit (s : String) : Bool :=
  s.data ≠ [] && s.data.all Char.isDigit

/-- Python `int(...)` of a cell value whose string form is all digits. -/
def cellInt : CellV → Int
  | .s v => (digitsToNat v.data : Nat)
  | .i n => n
  | .noneV => 0

/-- The body of the `async for row in get_transformations_from_csv(...)`
loop of `Metadata._enrich_transformations_config`, for one CSV row:
rewrite `column_order`, copy `origin` and `into` from the referencing
entry (raising `KeyError` if the referencing entry lacks the key), and
fold a truthy `validation_rule`/`validation_action` pair into a
single-element `validations` list. -/
def enrichCsvRow (transformation_config row : TEntry) : Except EnrichError TEntry := do
  let co ←
    match row.column_order with
    | some c => Except.ok c
    | none => Except.error (EnrichError.keyError "column_order")
  let row := { row with
    column_order := some (if pyIsDigit (cellStr co) then .i (cellInt co) else .noneV) }
  let originV ←
    match transformation_config.origin with
    | some o => Except.ok o
    | none => Except.error (EnrichError.keyError "origin")
  let row := { row with origin := some originV }
  let intoV ←
    match transformation_config.into with
    | some t => Except.ok t
    | none => Except.error (EnrichError.keyError "into")
  let row := { row with into := some intoV }
  if truthyOptStr row.validation_rule && truthyOptStr row.validation_action then
    match row.validation_rule, row.validation_action with
    | some vr, some va =>
        .ok { row with
          validations := some [⟨vr, va⟩],
          validation_rule := none,
          validation_action := none }
    | _, _ => .ok row
  else
    .ok row

/-- Enrich the CSV rows of one referencing entry in order, appending each
enriched row to the stage list (`transformations_config.append(row)`). -/
def processCsvRows (tc : TEntry) (rows l : List TEntry) :
    Except EnrichError (List TEntry) :=
  match rows with
  | [] => .ok l
  | r :: rest => do
      let r' ← enrichCsvRow tc r
      processCsvRows tc rest (l ++ [r'])

/-- Python `list.remove(x)`: drop the first element equal to `x` (in the
enrichment loop the element is always present, being the one currently
iterated over). -/
def pyRemoveFirst (x : TEntry) : List TEntry → List TEntry
  | [] => []
  | y :: tl => if y = x then tl else y :: pyRemoveFirst x tl

/-- The `for transformation_config in transformations_config:` loop of
`Metadata._enrich_transformations_config`.  Python iterates a live list by
index, so appending the CSV rows and removing the current entry shift
later positions; the index model reproduces that.  Because appended rows
could themselves carry a truthy `config` key, the Python loop need not
terminate, which the explicit `fuel` models (`none` = fuel exhausted). -/
def enrichLoop (csvRows : String → List TEntry) :
    Nat → List TEntry → Nat → Option (Except EnrichError (List TEntry))
  | 0, _, _ => none
  | fuel + 1, l, i =>
      if h : i < l.length then
        let tc := l.get ⟨i, h⟩
        if truthyOptStr tc.config then
          match tc.config with
          | some csv_path =>
              match processCsvRows tc (csvRows csv_path) l with
              | .error e => some (.error e)
              | .ok l' => enrichLoop csvRows fuel (pyRemoveFirst tc l') (i + 1)
          | none => enrichLoop csvRows fuel l (i + 1)
        else
          enrichLoop csvRows fuel l (i + 1)
      else
        some (.ok l)

/-- Embedding of `Metadata._enrich_transformations_config`, with the CSV
reader modelled as a map from path to its parsed data rows. -/
def _enrich_transformations_config (csvRows : String → List TEntry) (fuel : Nat)
    (transformations_config : List TEntry) :
    Option (Except EnrichError (List TEntry)) :=
  enrichLoop csvRows fuel transformations_config 0

/-!
## `metadata.py`: grouping and merging of pipeline configs
-/

/-- One enriched per-file configuration map.  The two path-derived
identity fields stamped by `_load_pipeline_with_metadata` are explicit;
`fields` holds the remaining key/value pairs of the dict in iteration
order. -/
structure FileCfg where
  target_schema_name : String
  pipeline_name : String
  fields : List (String × PyVal)

/-- The grouping key `itemgetter("target_schema_name", "pipeline_name")`. -/
def cfgKey (d : FileCfg) : String × String :=
  (d.target_schema_name, d.pipeline_name)

/-- The comparison `sorted(..., key=itemgetter(...))` sorts by: Python
tuple comparison of the (schema, pipeline) keys. -/
def cfgLE (a b : FileCfg) : Prop := pyPairLE (cfgKey a) (cfgKey b) = true

instance : DecidableRel cfgLE := fun a b => by
  unfold cfgLE; infer_instance

/-- The iteration order of `d.items()` for an enriched per-file map: the
file's own keys, then the two identity keys stamped after loading. -/
def cfgItems (d : FileCfg) : List (String × PyVal) :=
  d.fields
    ++ [("pipeline_name", .str d.pipeline_name),
        ("target_schema_name", .str d.target_schema_name)]

/-- One merge step of the `for k, v in d.items():` loop:
`merged[k].extend(v) if isinstance(v, list) else merged[k].append(v)`,
over the defaultdict-of-lists modelled extensionally as a total function
with default `[]`. -/
def pyExtendVal : PyVal → List PyVal
  | .list xs => xs.toList
  | v => [v]

/-- Apply one `k, v` item to the accumulator. -/
def mergeItem (acc : String → List PyVal) (kv : String × PyVal) :
    String → List PyVal :=
  fun k => if k = kv.1 then acc k ++ pyExtendVal kv.2 else acc k

/-- Merge all items of all members of one group, in order. -/
def mergeGroupAcc (group : List FileCfg) : String → List PyVal :=
  group.foldl (fun a d => (cfgItems d).foldl mergeItem a) (fun _ => [])

/-- The merged candidate map of one group: the accumulated per-key lists,
with the two identity keys overwritten by the group's scalar key parts
(`merged_pipeline_stages_dict["target_schema_name"] = schema`, etc.).
The Python dict is modelled extensionally (a key never touched reads as
the defaultdict default, the empty list). -/
def mergedDict (schema pipeline : String) (group : List FileCfg) :
    String → PyVal :=
  fun k =>
    if k = "target_schema_name" then .str schema
    else if k = "pipeline_name" then .str pipeline
    else .list (PyList.ofList (mergeGroupAcc group k))

/-- Embedding of `Metadata._group_pipeline_configs`: stable-sort the
per-file maps by (schema, pipeline), group consecutive equal keys, and
merge each group into one candidate map. -/
def _group_pipeline_configs (pipeline_configs : List FileCfg) :
    List (String → PyVal) :=
  (pyGroupRuns cfgKey (pipeline_configs.insertionSort cfgLE)).map
    (fun g => mergedDict g.1.1 g.1.2 g.2)

/-- The (schema, pipeline) identity read back from a merged candidate. -/
def mergedIdentity (m : String → PyVal) : PyVal × PyVal :=
  (m "target_schema_name", m "pipeline_name")

/-- Whether a merged value is the string `t`. -/
def pvIsStrEq : PyVal → String → Bool
  | .str s, t => s == t
  | _, _ => false

/-- Find the merged candidate of a given (schema, pipeline) identity. -/
def findGroup (res : List (String → PyVal)) (gk : String × String) :
    Option (String → PyVal) :=
  res.find? (fun m =>
    pvIsStrEq (m "target_schema_name") gk.1 && pvIsStrEq (m "pipeline_name") gk.2)

/-- The multiset of elements of a merged stage value (a list value gives
its elements, a scalar gives itself). -/
def pvMultiset (v : PyVal) : Multiset PyVal :=
  match v with
  | .list xs => (xs.toList : Multiset PyVal)
  | v => {v}

mutual
/-- No value reachable inside a container is Python `None`: every dict
value and every list element, at any depth, is non-`None` and itself
`None`-free. -/
def noneFreeVal : PyVal → Bool
  | .list xs => noneFreeList xs
  | .dict kvs => noneFreeDict kvs
  | _ => true

/-- Every element of the list is non-`None` and `None`-free. -/
def noneFreeList : PyList → Bool
  | .nil => true
  | .cons v tl => !pyIsNone v && noneFreeVal v && noneFreeList tl

/-- Every value of the dict is non-`None` and `None`-free. -/
def noneFreeDict : PyDict → Bool
  | .nil => true
  | .cons _ v tl => !pyIsNone v && noneFreeVal v && noneFreeDict tl
end

/-- The contribution of one item list to the merged value at key `k`:
the concatenation, in item order, of `pyExtendVal` of each value stored
under `k`. -/
def contribItems (items : List (String × PyVal)) (k : String) : List PyVal :=
  ((items.filter (fun kv => kv.1 = k)).map (fun kv => pyExtendVal kv.2)).flatten

/-!
## Helper lemmas: the lexicographic comparisons
-/

theorem pyCmpChars_swap : ∀ (as bs : List Char),
    pyCmpChars bs as = (pyCmpChars as bs).swap
  | [], [] => rfl
  | [], _ :: _ => rfl
  | _ :: _, [] => rfl
  | a :: as, b :: bs => by
      by_cases h1 : a.toNat < b.toNat
      · have h2 : ¬ b.toNat < a.toNat := by omega
        simp [pyCmpChars, h1, h2, Ordering.swap]
      · by_cases h2 : b.toNat < a.toNat
        · simp [pyCmpChars, h1, h2, Ordering.swap]
        · simp [pyCmpChars, h1, h2, pyCmpChars_swap as bs]

theorem pyCmpChars_eq_iff : ∀ (as bs : List Char),
    pyCmpChars as bs = .eq ↔ as = bs
  | [], [] => by simp [pyCmpChars]
  | [], _ :: _ => by simp [pyCmpChars]
  | _ :: _, [] => by simp [pyCmpChars]
  | a :: as, b :: bs => by
      by_cases h1 : a.toNat < b.toNat
      · simp only [pyCmpChars, if_pos h1]
        constructor
        · intro hc; cases hc
        · intro hc
          injection hc with hh _
          rw [hh] at h1
          omega
      · by_cases h2 : b.toNat < a.toNat
        · simp only [pyCmpChars, if_neg h1, if_pos h2]
          constructor
          · intro hc; cases hc
          · intro hc
            injection hc with hh _
            rw [hh] at h2
            omega
        · have hab : a = b := Char.eq_of_val_eq (UInt32.ext (show a.toNat = b.toNat by omega))
          simp only [pyCmpChars, if_neg h1, if_neg h2]
          rw [pyCmpChars_eq_iff as bs]
          simp [hab]

theorem pyCmpChars_lt_trans : ∀ (as bs cs : List Char),
    pyCmpChars as bs = .lt → pyCmpChars bs cs = .lt → pyCmpChars as cs = .lt
  | [], [], [] => by intro h1 _; simp [pyCmpChars] at h1
  | [], [], _ :: _ => by intro _ _; rfl
  | [], _ :: _, [] => by intro _ h2; simp [pyCmpChars] at h2
  | [], _ :: _, _ :: _ => by intro _ _; rfl
  | _ :: _, [], _ => by intro h1 _; simp [pyCmpChars] at h1
  | _ :: _, _ :: _, [] => by intro _ h2; simp [pyCmpChars] at h2
  | a :: as, b :: bs, c :: cs => by
      intro h1 h2
      rcases Nat.lt_trichotomy a.toNat b.toNat with hab | hab | hab <;>
        rcases Nat.lt_trichotomy b.toNat c.toNat with hbc | hbc | hbc
      · simp [pyCmpChars, show a.toNat < c.toNat by omega]
      · simp [pyCmpChars, show a.toNat < c.toNat by omega]
      · simp [pyCmpChars, show ¬ b.toNat < c.toNat by omega,
          show c.toNat < b.toNat by omega] at h2
      · simp [pyCmpChars, show a.toNat < c.toNat by omega]
      · simp only [pyCmpChars, if_neg (show ¬ a.toNat < b.toNat by omega),
          if_neg (show ¬ b.toNat < a.toNat by omega)] at h1
        simp only [pyCmpChars, if_neg (show ¬ b.toNat < c.toNat by omega),
          if_neg (show ¬ c.toNat < b.toNat by omega)] at h2
        simp only [pyCmpChars, if_neg (show ¬ a.toNat < c.toNat by omega),
          if_neg (show ¬ c.toNat < a.toNat by omega)]
        exact pyCmpChars_lt_trans as bs cs h1 h2
      · simp [pyCmpChars, show ¬ b.toNat < c.toNat by omega,
          show c.toNat < b.toNat by omega] at h2
      · simp [pyCmpChars, show ¬ a.toNat < b.toNat by omega,
          show b.toNat < a.toNat by omega] at h1
      · simp [pyCmpChars, show ¬ a.toNat < b.toNat by omega,
          show b.toNat < a.toNat by omega] at h1
      · simp [pyCmpChars, show ¬ a.toNat < b.toNat by omega,
          show b.toNat < a.toNat by omega] at h1


theorem pyStrCmp_swap (a b : String) : pyStrCmp b a = (pyStrCmp a b).swap :=
  pyCmpChars_swap a.data b.data

theorem pyStrCmp_eq_iff (a b : String) : pyStrCmp a b = .eq ↔ a = b := by
  rw [pyStrCmp, pyCmpChars_eq_iff]
  constructor
  · intro h
    cases a; cases b; simp_all
  · intro h; rw [h]

theorem pyStrCmp_lt_trans (a b c : String) :
    pyStrCmp a b = .lt → pyStrCmp b c = .lt → pyStrCmp a c = .lt :=
  pyCmpChars_lt_trans a.data b.data c.data

theorem strle_iff (a b : String) : strle a b ↔ pyStrCmp a b ≠ .gt := by
  unfold strle pyStrLE
  exact decide_eq_true_iff

theorem strle_total (a b : String) : strle a b ∨ strle b a := by
  rw [strle_iff, strle_iff, pyStrCmp_swap a b]
  cases pyStrCmp a b <;> simp [Ordering.swap]

theorem strle_trans {a b c : String} (h1 : strle a b) (h2 : strle b c) :
    strle a c := by
  rw [strle_iff] at h1 h2 ⊢
  cases hab : pyStrCmp a b with
  | gt => exact absurd hab h1
  | eq => rw [(pyStrCmp_eq_iff a b).mp hab]; exact h2
  | lt =>
      cases hbc : pyStrCmp b c with
      | gt => exact absurd hbc h2
      | eq => rw [← (pyStrCmp_eq_iff b c).mp hbc]; simp [hab]
      | lt => simp [pyStrCmp_lt_trans a b c hab hbc]

theorem strle_antisymm {a b : String} (h1 : strle a b) (h2 : strle b a) :
    a = b := by
  rw [strle_iff] at h1 h2
  rw [pyStrCmp_swap] at h2
  cases hab : pyStrCmp a b with
  | gt => exact absurd hab h1
  | eq => exact (pyStrCmp_eq_iff a b).mp hab
  | lt => rw [hab] at h2; simp [Ordering.swap] at h2

theorem pyPairCmp_swap (a b : String × String) :
    pyPairCmp b a = (pyPairCmp a b).swap := by
  unfold pyPairCmp
  rw [pyStrCmp_swap b.1 a.1, pyStrCmp_swap b.2 a.2]
  cases pyStrCmp b.1 a.1 <;> cases pyStrCmp b.2 a.2 <;>
    simp [Ordering.then, Ordering.swap]

theorem pyPairCmp_eq_iff (a b : String × String) :
    pyPairCmp a b = .eq ↔ a = b := by
  unfold pyPairCmp
  constructor
  · intro h
    cases h1 : pyStrCmp a.1 b.1 <;> rw [h1] at h <;> simp [Ordering.then] at h
    exact Prod.ext ((pyStrCmp_eq_iff a.1 b.1).mp h1) ((pyStrCmp_eq_iff a.2 b.2).mp h)
  · intro h
    subst h
    rw [(pyStrCmp_eq_iff a.1 a.1).mpr rfl]
    simpa [Ordering.then] using (pyStrCmp_eq_iff a.2 a.2).mpr rfl

theorem pyPairCmp_lt_trans (a b c : String × String) :
    pyPairCmp a b = .lt → pyPairCmp b c = .lt → pyPairCmp a c = .lt := by
  unfold pyPairCmp
  intro h1 h2
  cases hab : pyStrCmp a.1 b.1 <;> rw [hab] at h1 <;> simp [Ordering.then] at h1
  · -- first components strictly below
    cases hbc : pyStrCmp b.1 c.1 <;> rw [hbc] at h2 <;> simp [Ordering.then] at h2
    · rw [pyStrCmp_lt_trans a.1 b.1 c.1 hab hbc]; rfl
    · rw [← (pyStrCmp_eq_iff b.1 c.1).mp hbc, hab]; rfl
  · -- first components equal
    have e1 := (pyStrCmp_eq_iff a.1 b.1).mp hab
    cases hbc : pyStrCmp b.1 c.1 <;> rw [hbc] at h2 <;> simp [Ordering.then] at h2
    · rw [e1, hbc]; rfl
    · rw [e1, hbc]
      simpa [Ordering.then] using pyStrCmp_lt_trans a.2 b.2 c.2 h1 h2

theorem pairle_iff (a b : String × String) : pairle a b ↔ pyPairCmp a b ≠ .gt := by
  unfold pairle pyPairLE
  exact decide_eq_true_iff

theorem pairle_total (a b : String × String) : pairle a b ∨ pairle b a := by
  rw [pairle_iff, pairle_iff, pyPairCmp_swap a b]
  cases pyPairCmp a b <;> simp [Ordering.swap]

theorem pairle_trans {a b c : String × String} (h1 : pairle a b)
    (h2 : pairle b c) : pairle a c := by
  rw [pairle_iff] at h1 h2 ⊢
  cases hab : pyPairCmp a b with
  | gt => exact absurd hab h1
  | eq => rw [(pyPairCmp_eq_iff a b).mp hab]; exact h2
  | lt =>
      cases hbc : pyPairCmp b c with
      | gt => exact absurd hbc h2
      | eq => rw [← (pyPairCmp_eq_iff b c).mp hbc]; simp [hab]
      | lt => simp [pyPairCmp_lt_trans a b c hab hbc]

theorem pairle_antisymm {a b : String × String} (h1 : pairle a b)
    (h2 : pairle b a) : a = b := by
  rw [pairle_iff] at h1 h2
  rw [pyPairCmp_swap] at h2
  cases hab : pyPairCmp a b with
  | gt => exact absurd hab h1
  | eq => exact (pyPairCmp_eq_iff a b).mp hab
  | lt => rw [hab] at h2; simp [Ordering.swap] at h2


/-!
## Helper lemmas: `pyGroupRuns`
-/

theorem pyGroupRuns_flatten {α κ : Type} [DecidableEq κ] (key : α → κ) :
    ∀ l : List α, ((pyGroupRuns key l).map Prod.snd).flatten = l
  | [] => rfl
  | a :: tl => by
      have ih := pyGroupRuns_flatten key tl
      simp only [pyGroupRuns]
      cases hr : pyGroupRuns key tl with
      | nil =>
          rw [hr] at ih
          simp only [List.map_nil, List.flatten_nil] at ih
          simp [← ih]
      | cons g rest =>
          obtain ⟨k, grp⟩ := g
          rw [hr] at ih
          simp only [List.map_cons, List.flatten_cons] at ih
          by_cases hk : key a = k
          · simp only [if_pos hk, List.map_cons, List.flatten_cons, List.cons_append, ih]
          · simp only [if_neg hk, List.map_cons, List.flatten_cons, List.singleton_append, ih]

theorem pyGroupRuns_mem_key {α κ : Type} [DecidableEq κ] (key : α → κ) :
    ∀ (l : List α), ∀ g ∈ pyGroupRuns key l, ∀ x ∈ g.2, key x = g.1
  | [], g, hg => by cases hg
  | a :: tl, g, hg => by
      have ih := pyGroupRuns_mem_key key tl
      simp only [pyGroupRuns] at hg
      cases hr : pyGroupRuns key tl with
      | nil =>
          rw [hr] at hg
          simp only [List.mem_singleton] at hg
          subst hg
          intro x hx
          simp only [List.mem_singleton] at hx
          subst hx
          rfl
      | cons g0 rest =>
          obtain ⟨k, grp⟩ := g0
          rw [hr] at hg
          dsimp only at hg
          by_cases hk : key a = k
          · rw [if_pos hk] at hg
            rcases List.mem_cons.mp hg with hg | hg
            · subst hg
              intro x hx
              rcases List.mem_cons.mp hx with hx | hx
              · subst hx; exact hk
              · exact ih (k, grp) (hr ▸ List.mem_cons_self _ _) x hx
            · exact ih g (hr ▸ List.mem_cons_of_mem _ hg)
          · rw [if_neg hk] at hg
            rcases List.mem_cons.mp hg with hg | hg
            · subst hg
              intro x hx
              simp only [List.mem_singleton] at hx
              subst hx
              rfl
            · exact ih g (hr ▸ hg)

theorem pyGroupRuns_ne_nil {α κ : Type} [DecidableEq κ] (key : α → κ) :
    ∀ (l : List α), ∀ g ∈ pyGroupRuns key l, g.2 ≠ []
  | [], g, hg => by cases hg
  | a :: tl, g, hg => by
      have ih := pyGroupRuns_ne_nil key tl
      simp only [pyGroupRuns] at hg
      cases hr : pyGroupRuns key tl with
      | nil =>
          rw [hr] at hg
          simp only [List.mem_singleton] at hg
          subst hg
          simp
      | cons g0 rest =>
          obtain ⟨k, grp⟩ := g0
          rw [hr] at hg
          dsimp only at hg
          by_cases hk : key a = k
          · rw [if_pos hk] at hg
            rcases List.mem_cons.mp hg with hg | hg
            · subst hg; simp
            · exact ih g (hr ▸ List.mem_cons_of_mem _ hg)
          · rw [if_neg hk] at hg
            rcases List.mem_cons.mp hg with hg | hg
            · subst hg; simp
            · exact ih g (hr ▸ hg)

theorem pyGroupRuns_fst_mem {α κ : Type} [DecidableEq κ] (key : α → κ)
    (l : List α) (k : κ) (hk : k ∈ (pyGroupRuns key l).map Prod.fst) :
    ∃ x ∈ l, key x = k := by
  rcases List.mem_map.mp hk with ⟨g, hg, hfst⟩
  rcases List.exists_mem_of_ne_nil _ (pyGroupRuns_ne_nil key l g hg) with ⟨x, hx⟩
  refine ⟨x, ?_, hfst ▸ pyGroupRuns_mem_key key l g hg x hx⟩
  rw [← pyGroupRuns_flatten key l]
  exact List.mem_flatten.mpr ⟨g.2, List.mem_map.mpr ⟨g, hg, rfl⟩, hx⟩

theorem pyGroupRuns_fst_pairwise {α κ : Type} [DecidableEq κ] (key : α → κ)
    (le : κ → κ → Prop) (hanti : ∀ x y, le x y → le y x → x = y) :
    ∀ l : List α, l.Pairwise (fun a b => le (key a) (key b)) →
      ((pyGroupRuns key l).map Prod.fst).Pairwise (fun k1 k2 => le k1 k2 ∧ k1 ≠ k2)
  | [], _ => by simp [pyGroupRuns]
  | a :: tl, hs => by
      rcases List.pairwise_cons.mp hs with ⟨ha, htl⟩
      have ih := pyGroupRuns_fst_pairwise key le hanti tl htl
      simp only [pyGroupRuns]
      cases hr : pyGroupRuns key tl with
      | nil => simp
      | cons g0 rest =>
          obtain ⟨k, grp⟩ := g0
          rw [hr] at ih
          dsimp only
          by_cases hk : key a = k
          · rw [if_pos hk]
            simpa using ih
          · rw [if_neg hk]
            simp only [List.map_cons] at ih ⊢
            refine List.pairwise_cons.mpr ⟨?_, ih⟩
            intro k2 hk2
            have hk2m : k2 ∈ (pyGroupRuns key tl).map Prod.fst := by
              rw [hr]; simpa using hk2
            rcases pyGroupRuns_fst_mem key tl k2 hk2m with ⟨x, hx, hkey⟩
            have hle : le (key a) k2 := hkey ▸ ha x hx
            refine ⟨hle, ?_⟩
            rcases List.mem_cons.mp hk2 with h2 | h2
            · subst h2; exact hk
            · intro heq
              have hkm : k ∈ (pyGroupRuns key tl).map Prod.fst := by
                rw [hr]; simp
              rcases pyGroupRuns_fst_mem key tl k hkm with ⟨y, hy, hkeyy⟩
              have hlek : le (key a) k := hkeyy ▸ ha y hy
              have hkk2 : le k k2 ∧ k ≠ k2 := (List.pairwise_cons.mp ih).1 k2 h2
              exact hk (hanti (key a) k hlek (heq ▸ hkk2.1))

theorem pyGroupRuns_fst_nodup {α κ : Type} [DecidableEq κ] (key : α → κ)
    (le : κ → κ → Prop) (hanti : ∀ x y, le x y → le y x → x = y)
    (l : List α) (hs : l.Pairwise (fun a b => le (key a) (key b))) :
    ((pyGroupRuns key l).map Prod.fst).Nodup :=
  (pyGroupRuns_fst_pairwise key le hanti l hs).imp (fun h => h.2)

theorem flatten_filtergroups_of_nodup {α κ : Type} [DecidableEq κ] (key : α → κ) (K : κ) :
    ∀ (R : List (κ × List α)) (g : κ × List α), g ∈ R → g.1 = K →
      (R.map Prod.fst).Nodup →
      (∀ h ∈ R, ∀ x ∈ h.2, key x = h.1) →
      (R.map (fun h => h.2.filter (fun x => key x = K))).flatten = g.2
  | [], g, hg, _, _, _ => by cases hg
  | h :: rest, g, hg, hgK, hnd, hkeys => by
      simp only [List.map_cons, List.flatten_cons]
      rcases List.pairwise_cons.mp hnd with ⟨hne, hndrest⟩
      by_cases hK : h.1 = K
      · have hgh : g = h := by
          rcases List.mem_cons.mp hg with hg | hg
          · exact hg
          · exfalso
            exact hne g.1 (List.mem_map.mpr ⟨g, hg, rfl⟩) (by rw [hK, hgK])
        have hh : h.2.filter (fun x => key x = K) = h.2 :=
          List.filter_eq_self.mpr (fun x hx => by
            simp [hkeys h (List.mem_cons_self _ _) x hx, hK])
        have hrest : (rest.map (fun h => h.2.filter (fun x => key x = K))).flatten = [] := by
          rw [List.flatten_eq_nil_iff]
          intro y hy
          rcases List.mem_map.mp hy with ⟨h2, hh2, rfl⟩
          refine List.filter_eq_nil_iff.mpr (fun x hx => ?_)
          have := hkeys h2 (List.mem_cons_of_mem _ hh2) x hx
          simp only [this]
          intro hcon
          exact hne h2.1 (List.mem_map.mpr ⟨h2, hh2, rfl⟩) (by
            rw [hK]
            exact ((decide_eq_true_iff).mp hcon).symm)
        rw [hh, hrest, hgh, List.append_nil]
      · have hgrest : g ∈ rest := by
          rcases List.mem_cons.mp hg with hg | hg
          · exact absurd (hg ▸ hgK) hK
          · exact hg
        have hh : h.2.filter (fun x => key x = K) = [] :=
          List.filter_eq_nil_iff.mpr (fun x hx => by
            simp [hkeys h (List.mem_cons_self _ _) x hx, hK])
        rw [hh, List.nil_append]
        exact flatten_filtergroups_of_nodup key K rest g hgrest hgK hndrest
          (fun h2 hh2 => hkeys h2 (List.mem_cons_of_mem _ hh2))

theorem pyGroupRuns_group_eq_filter {α κ : Type} [DecidableEq κ] (key : α → κ)
    (le : κ → κ → Prop) (hanti : ∀ x y, le x y → le y x → x = y)
    (l : List α) (hs : l.Pairwise (fun a b => le (key a) (key b)))
    (g : κ × List α) (hg : g ∈ pyGroupRuns key l) :
    g.2 = l.filter (fun x => key x = g.1) := by
  conv_rhs => rw [← pyGroupRuns_flatten key l]
  rw [List.filter_flatten, List.map_map]
  exact (flatten_filtergroups_of_nodup key g.1 (pyGroupRuns key l) g hg rfl
    (pyGroupRuns_fst_nodup key le hanti l hs)
    (pyGroupRuns_mem_key key l)).symm


/-!
## Helper lemmas: the sanitizer
-/

theorem sanitizeValue_dict (kvs : PyDict) (drop_empty : Bool) :
    sanitizeValue (.dict kvs) drop_empty
      = (_santize_empty_fields kvs drop_empty).map PyVal.dict
      ∨ _is_empty (.dict kvs) = true := by
  by_cases he : _is_empty (.dict kvs)
  · exact Or.inr he
  · refine Or.inl ?_
    unfold sanitizeValue _santize_empty_fields
    rw [if_neg he]
    cases hf : sanitizeFieldsGo kvs drop_empty with
    | error err => cases drop_empty <;> simp [hf, Except.map, Except.bind, bind]
    | ok fields => cases drop_empty <;> simp [hf, Except.map, Except.bind, bind]

theorem sanitizeValue_list (xs : PyList) (drop_empty : Bool) :
    sanitizeValue (.list xs) drop_empty
      = (_sanitize_empty_elements xs drop_empty).map PyVal.list
      ∨ _is_empty (.list xs) = true := by
  by_cases he : _is_empty (.list xs)
  · exact Or.inr he
  · refine Or.inl ?_
    unfold sanitizeValue _sanitize_empty_elements
    rw [if_neg he]
    cases hf : sanitizeElemsGo xs drop_empty with
    | error err => cases drop_empty <;> simp [hf, Except.map, Except.bind, bind]
    | ok elements => cases drop_empty <;> simp [hf, Except.map, Except.bind, bind]

theorem dropNoneValues_noneFree : ∀ (kvs : PyDict),
    (∀ kv ∈ kvs.toList, noneFreeVal kv.2 = true) →
    noneFreeDict kvs.dropNoneValues = true
  | .nil, _ => rfl
  | .cons k v tl, h => by
      have hv := h (k, v) (by simp [PyDict.toList])
      have htl := dropNoneValues_noneFree tl
        (fun kv hkv => h kv (by simp [PyDict.toList, hkv]))
      unfold PyDict.dropNoneValues
      by_cases hn : pyIsNone v
      · rw [if_pos hn]; exact htl
      · rw [if_neg hn]
        simp only [noneFreeDict, htl, hv, hn]
        rfl

theorem dropNoneElems_noneFree : ∀ (xs : PyList),
    (∀ v ∈ xs.toList, noneFreeVal v = true) →
    noneFreeList xs.dropNoneElems = true
  | .nil, _ => rfl
  | .cons v tl, h => by
      have hv := h v (by simp [PyList.toList])
      have htl := dropNoneElems_noneFree tl
        (fun w hw => h w (by simp [PyList.toList, hw]))
      unfold PyList.dropNoneElems
      by_cases hn : pyIsNone v
      · rw [if_pos hn]; exact htl
      · rw [if_neg hn]
        simp only [noneFreeList, htl, hv, hn]
        rfl

mutual
theorem sanitizeValue_noneFree : ∀ (v : PyVal) (e : PyVal),
    sanitizeValue v true = .ok e → noneFreeVal e = true
  | .str s, e, h => by
      unfold sanitizeValue at h
      by_cases hemp : _is_empty (.str s) <;>
        [rw [if_pos hemp] at h; rw [if_neg hemp] at h] <;>
        (injection h with h; subst h; rfl)
  | .int n, e, h => by
      unfold sanitizeValue at h
      by_cases hemp : _is_empty (.int n) <;>
        [rw [if_pos hemp] at h; rw [if_neg hemp] at h] <;>
        (injection h with h; subst h; rfl)
  | .bool b, e, h => by
      unfold sanitizeValue at h
      by_cases hemp : _is_empty (.bool b) <;>
        [rw [if_pos hemp] at h; rw [if_neg hemp] at h] <;>
        (injection h with h; subst h; rfl)
  | .pynone, e, h => by
      unfold sanitizeValue at h
      by_cases hemp : _is_empty .pynone <;>
        [rw [if_pos hemp] at h; rw [if_neg hemp] at h] <;>
        (injection h with h; subst h; rfl)
  | .dict kvs, e, h => by
      unfold sanitizeValue at h
      by_cases hemp : _is_empty (.dict kvs)
      · rw [if_pos hemp] at h
        injection h with h
        subst h
        rfl
      · rw [if_neg hemp] at h
        dsimp only at h
        cases hf : sanitizeFieldsGo kvs true with
        | error err => rw [hf] at h; simp [Except.bind, bind] at h
        | ok fields =>
            rw [hf] at h
            simp only [Except.bind, bind] at h
            injection h with h
            subst h
            simp only [noneFreeVal, if_pos rfl]
            exact dropNoneValues_noneFree fields
              (sanitizeFieldsGo_noneFree kvs fields hf)
  | .list xs, e, h => by
      unfold sanitizeValue at h
      by_cases hemp : _is_empty (.list xs)
      · rw [if_pos hemp] at h
        injection h with h
        subst h
        rfl
      · rw [if_neg hemp] at h
        dsimp only at h
        cases hf : sanitizeElemsGo xs true with
        | error err => rw [hf] at h; simp [Except.bind, bind] at h
        | ok elements =>
            rw [hf] at h
            simp only [Except.bind, bind] at h
            injection h with h
            subst h
            simp only [noneFreeVal, if_pos rfl]
            exact dropNoneElems_noneFree elements
              (sanitizeElemsGo_noneFree xs elements hf)
termination_by structural v _ _ => v

theorem sanitizeElemsGo_noneFree : ∀ (xs : PyList) (r : PyList),
    sanitizeElemsGo xs true = .ok r → ∀ v ∈ r.toList, noneFreeVal v = true
  | .nil, r, h => by
      injection h with h
      subst h
      intro v hv
      cases hv
  | .cons v tl, r, h => by
      unfold sanitizeElemsGo at h
      cases he : sanitizeValue v true with
      | error err => rw [he] at h; simp [Except.bind, bind] at h
      | ok e =>
          rw [he] at h
          cases ht : sanitizeElemsGo tl true with
          | error err => rw [ht] at h; simp [Except.bind, bind] at h
          | ok rest =>
              rw [ht] at h
              simp only [Except.bind, bind] at h
              injection h with h
              subst h
              intro w hw
              rcases List.mem_cons.mp hw with hw | hw
              · simpa [hw] using sanitizeValue_noneFree v e he
              · exact sanitizeElemsGo_noneFree tl rest ht w hw
termination_by structural xs _ _ => xs

theorem sanitizeFieldsGo_noneFree : ∀ (kvs : PyDict) (r : PyDict),
    sanitizeFieldsGo kvs true = .ok r → ∀ kv ∈ r.toList, noneFreeVal kv.2 = true
  | .nil, r, h => by
      injection h with h
      subst h
      intro kv hkv
      cases hkv
  | .cons (.int n) v tl, r, h => by
      unfold sanitizeFieldsGo at h
      simp [Except.bind, bind] at h
  | .cons (.bool b) v tl, r, h => by
      unfold sanitizeFieldsGo at h
      simp [Except.bind, bind] at h
  | .cons (.str s) v tl, r, h => by
      unfold sanitizeFieldsGo at h
      dsimp only at h
      cases he : sanitizeValue v true with
      | error err => rw [he] at h; simp [Except.bind, bind] at h
      | ok e =>
          rw [he] at h
          cases ht : sanitizeFieldsGo tl true with
          | error err => rw [ht] at h; simp [Except.bind, bind] at h
          | ok rest =>
              rw [ht] at h
              simp only [Except.bind, bind] at h
              injection h with h
              subst h
              intro kv hkv
              rcases List.mem_cons.mp hkv with hkv | hkv
              · simpa [hkv] using sanitizeValue_noneFree v e he
              · exact sanitizeFieldsGo_noneFree tl rest ht kv hkv
termination_by structural kvs _ _ => kvs
end

theorem _santize_empty_fields_noneFree (kvs : PyDict) (r : PyDict)
    (h : _santize_empty_fields kvs true = .ok r) : noneFreeDict r = true := by
  unfold _santize_empty_fields at h
  cases hf : sanitizeFieldsGo kvs true with
  | error err => rw [hf] at h; simp [Except.bind, bind] at h
  | ok fields =>
      rw [hf] at h
      simp only [Except.bind, bind] at h
      injection h with h
      subst h
      exact dropNoneValues_noneFree fields (sanitizeFieldsGo_noneFree kvs fields hf)

theorem _sanitize_empty_elements_noneFree (xs : PyList) (r : PyList)
    (h : _sanitize_empty_elements xs true = .ok r) : noneFreeList r = true := by
  unfold _sanitize_empty_elements at h
  cases hf : sanitizeElemsGo xs true with
  | error err => rw [hf] at h; simp [Except.bind, bind] at h
  | ok elements =>
      rw [hf] at h
      simp only [Except.bind, bind] at h
      injection h with h
      subst h
      exact dropNoneElems_noneFree elements (sanitizeElemsGo_noneFree xs elements hf)


mutual
theorem sanitizeValue_error_attr : ∀ (v : PyVal) (d : Bool) (e : SanitizeError),
    sanitizeValue v d = .error e → e = .attributeError
  | .str s, d, e, h => by
      unfold sanitizeValue at h
      by_cases hemp : _is_empty (.str s) <;> simp [hemp] at h
  | .int n, d, e, h => by
      unfold sanitizeValue at h
      by_cases hemp : _is_empty (.int n) <;> simp [hemp] at h
  | .bool b, d, e, h => by
      unfold sanitizeValue at h
      by_cases hemp : _is_empty (.bool b) <;> simp [hemp] at h
  | .pynone, d, e, h => by
      unfold sanitizeValue at h
      by_cases hemp : _is_empty .pynone <;> simp [hemp] at h
  | .dict kvs, d, e, h => by
      unfold sanitizeValue at h
      by_cases hemp : _is_empty (.dict kvs)
      · rw [if_pos hemp] at h; cases h
      · rw [if_neg hemp] at h
        dsimp only at h
        cases hf : sanitizeFieldsGo kvs d with
        | error err =>
            rw [hf] at h
            simp only [Except.bind, bind] at h
            injection h with h
            exact (h ▸ sanitizeFieldsGo_error_attr kvs d err hf)
        | ok fields =>
            rw [hf] at h
            simp [Except.bind, bind] at h
  | .list xs, d, e, h => by
      unfold sanitizeValue at h
      by_cases hemp : _is_empty (.list xs)
      · rw [if_pos hemp] at h; cases h
      · rw [if_neg hemp] at h
        dsimp only at h
        cases hf : sanitizeElemsGo xs d with
        | error err =>
            rw [hf] at h
            simp only [Except.bind, bind] at h
            injection h with h
            exact (h ▸ sanitizeElemsGo_error_attr xs d err hf)
        | ok elements =>
            rw [hf] at h
            simp [Except.bind, bind] at h
termination_by structural v _ _ _ => v

theorem sanitizeElemsGo_error_attr : ∀ (xs : PyList) (d : Bool) (e : SanitizeError),
    sanitizeElemsGo xs d = .error e → e = .attributeError
  | .nil, d, e, h => by cases h
  | .cons v tl, d, e, h => by
      unfold sanitizeElemsGo at h
      cases he : sanitizeValue v d with
      | error err =>
          rw [he] at h
          simp only [Except.bind, bind] at h
          injection h with h
          exact h ▸ sanitizeValue_error_attr v d err he
      | ok ev =>
          rw [he] at h
          cases ht : sanitizeElemsGo tl d with
          | error err =>
              rw [ht] at h
              simp only [Except.bind, bind] at h
              injection h with h
              exact h ▸ sanitizeElemsGo_error_attr tl d err ht
          | ok rest => rw [ht] at h; simp [Except.bind, bind] at h
termination_by structural xs _ _ _ => xs

theorem sanitizeFieldsGo_error_attr : ∀ (kvs : PyDict) (d : Bool) (e : SanitizeError),
    sanitizeFieldsGo kvs d = .error e → e = .attributeError
  | .nil, d, e, h => by cases h
  | .cons (.int n) v tl, d, e, h => by
      unfold sanitizeFieldsGo at h
      simp only [Except.bind, bind] at h
      injection h with h
      exact h.symm
  | .cons (.bool b) v tl, d, e, h => by
      unfold sanitizeFieldsGo at h
      simp only [Except.bind, bind] at h
      injection h with h
      exact h.symm
  | .cons (.str s) v tl, d, e, h => by
      unfold sanitizeFieldsGo at h
      dsimp only at h
      cases he : sanitizeValue v d with
      | error err =>
          rw [he] at h
          simp only [Except.bind, bind] at h
          injection h with h
          exact h ▸ sanitizeValue_error_attr v d err he
      | ok ev =>
          rw [he] at h
          cases ht : sanitizeFieldsGo tl d with
          | error err =>
              rw [ht] at h
              simp only [Except.bind, bind] at h
              injection h with h
              exact h ▸ sanitizeFieldsGo_error_attr tl d err ht
          | ok rest => rw [ht] at h; simp [Except.bind, bind] at h
termination_by structural kvs _ _ _ => kvs
end

theorem sanitizeFieldsGo_nonstring_key_error :
    ∀ (kvs : PyDict) (d : Bool),
    (∃ kv ∈ kvs.toList, ∀ s, kv.1 ≠ PyKey.str s) →
    sanitizeFieldsGo kvs d = .error .attributeError
  | .nil, d, h => by
      rcases h with ⟨kv, hkv, _⟩
      cases hkv
  | .cons k v tl, d, h => by
      rcases h with ⟨kv, hkv, hns⟩
      simp only [PyDict.toList] at hkv
      rw [List.mem_cons] at hkv
      rcases hkv with hkv | hkv
      · subst hkv
        cases k with
        | str s => exact absurd rfl (hns s)
        | int n => unfold sanitizeFieldsGo; simp [Except.bind, bind]
        | bool b => unfold sanitizeFieldsGo; simp [Except.bind, bind]
      · cases k with
        | int n => unfold sanitizeFieldsGo; simp [Except.bind, bind]
        | bool b => unfold sanitizeFieldsGo; simp [Except.bind, bind]
        | str s =>
            unfold sanitizeFieldsGo
            dsimp only
            cases he : sanitizeValue v d with
            | error err =>
                simp only [Except.bind, bind]
                rw [sanitizeValue_error_attr v d err he]
            | ok ev =>
                simp only [Except.bind, bind]
                rw [sanitizeFieldsGo_nonstring_key_error tl d ⟨kv, hkv, hns⟩]

/-!
## Claim theorems: the sanitizer (C8, C10)
-/

/-- C8 counterexample: the claim says a non-string map key is coerced to
its string form rather than causing a failure, but sanitizing the dict
`{1: "x"}` raises `AttributeError` (the source calls `k.replace(".", "_")`
on every key, and an int has no `replace` method). -/
theorem sanitize_nonstring_key_counterexample :
    sanitize_empty_objects (.dict (.cons (.int 1) (.str "x") .nil)) false
      = .error .attributeError := rfl

/-- C8 (amended): a map input whose keys include a non-string key makes
the sanitizer raise `AttributeError`; non-string keys are never coerced
to strings. -/
theorem sanitize_nonstring_key_raises (kvs : PyDict) (drop_empty : Bool)
    (h : ∃ kv ∈ kvs.toList, ∀ s, kv.1 ≠ PyKey.str s) :
    sanitize_empty_objects (.dict kvs) drop_empty = .error .attributeError := by
  unfold sanitize_empty_objects _santize_empty_fields
  dsimp only
  rw [sanitizeFieldsGo_nonstring_key_error kvs drop_empty h]
  rfl

/-- C8 witness: the amended theorem applied to `{1: "x"}`. -/
theorem sanitize_nonstring_key_raises_witness :
    sanitize_empty_objects (.dict (.cons (.int 1) (.str "x") .nil)) true
      = .error .attributeError :=
  sanitize_nonstring_key_raises (.cons (.int 1) (.str "x") .nil) true
    ⟨(.int 1, .str "x"), by simp [PyDict.toList], fun s h => by cases h⟩

/-- C10: whenever `sanitize_empty_objects` succeeds with `drop_empty=True`,
the result contains no `None` anywhere: every map value and every list
element, at any nesting depth, is non-`None` (both the `None`s produced by
the empty-value classification and the `None`s already present in the
input are removed from their parent map or list). -/
theorem sanitize_drop_empty_noneFree (obj r : PyVal)
    (h : sanitize_empty_objects obj true = .ok r) : noneFreeVal r = true := by
  cases obj with
  | dict kvs =>
      unfold sanitize_empty_objects at h
      dsimp only at h
      cases hf : _santize_empty_fields kvs true with
      | error err => rw [hf] at h; simp [Except.bind, bind] at h
      | ok fs =>
          rw [hf] at h
          simp only [Except.bind, bind] at h
          injection h with h
          subst h
          simpa [noneFreeVal] using _santize_empty_fields_noneFree kvs fs hf
  | list xs =>
      unfold sanitize_empty_objects at h
      dsimp only at h
      cases hf : _sanitize_empty_elements xs true with
      | error err => rw [hf] at h; simp [Except.bind, bind] at h
      | ok es =>
          rw [hf] at h
          simp only [Except.bind, bind] at h
          injection h with h
          subst h
          simpa [noneFreeVal] using _sanitize_empty_elements_noneFree xs es hf
  | str s => simp [sanitize_empty_objects] at h
  | int n => simp [sanitize_empty_objects] at h
  | bool b => simp [sanitize_empty_objects] at h
  | pynone => simp [sanitize_empty_objects] at h

/-- C10 witness: sanitizing `{"a": "", "b": 1, "c": None}` with
`drop_empty=True` yields `{"b": 1}`, which is `None`-free. -/
theorem sanitize_drop_empty_noneFree_witness :
    sanitize_empty_objects
        (.dict (.cons (.str "a") (.str "")
          (.cons (.str "b") (.int 1)
            (.cons (.str "c") .pynone .nil)))) true
      = .ok (.dict (.cons (.str "b") (.int 1) .nil))
    ∧ noneFreeVal (.dict (.cons (.str "b") (.int 1) .nil)) = true :=
  ⟨rfl, sanitize_drop_empty_noneFree
    (.dict (.cons (.str "a") (.str "")
      (.cons (.str "b") (.int 1)
        (.cons (.str "c") .pynone .nil))))
    (.dict (.cons (.str "b") (.int 1) .nil)) rfl⟩

/-!
## Claim theorems: the format loader (C7)
-/

/-- C7 counterexample: the claim says an unreadable file (and any other
I/O failure) yields the absence result and no exception propagates, but
a file whose bytes do not decode makes the text-mode read raise
`UnicodeDecodeError` — a `ValueError` matched by none of the `except`
clauses — and `get_config_from_file` propagates it to its caller instead
of returning the absence value. -/
theorem get_config_from_file_decode_error_counterexample :
    get_config_from_file
        ⟨fun _ => .error (), fun _ => .error (), fun _ => .error ()⟩
        ⟨true, ".json", .error .unicodeDecodeError⟩
      = .error .unicodeDecodeError := rfl

/-- C7 (amended): every failure mode of the `try` body other than a
text-decoding failure of the read — missing file, `OSError`, malformed
content for the detected format, unsupported extension, async runtime
error — is caught, logged and converted to the absence value `none`, and
a path that does not exist also yields `none`; the one exception that can
propagate out of `get_config_from_file` is the read's
`UnicodeDecodeError`. -/
theorem get_config_from_file_raises_only_decode_error (env : ParserEnv)
    (f : SettingsFile) :
    (∀ e, get_config_from_file_body env f = .error e →
        e ≠ .unicodeDecodeError → get_config_from_file env f = .ok none)
    ∧ (f.pathExists = false → get_config_from_file env f = .ok none)
    ∧ (∀ e, get_config_from_file env f = .error e → e = .unicodeDecodeError) := by
  refine ⟨?_, ?_, ?_⟩
  · intro e he hne
    unfold get_config_from_file
    rw [he]
    cases e with
    | fileNotFoundError => rfl
    | osError => rfl
    | jsonDecodeError => rfl
    | yamlError => rfl
    | tomlDecodeError => rfl
    | typeError => rfl
    | runtimeError msg => rfl
    | unicodeDecodeError => exact absurd rfl hne
  · intro hne
    unfold get_config_from_file get_config_from_file_body
    rw [hne]
    rfl
  · intro e he
    unfold get_config_from_file at he
    cases hb : get_config_from_file_body env f with
    | ok v => rw [hb] at he; cases he
    | error eb =>
        rw [hb] at he
        cases eb <;> cases he
        rfl

/-- C7 witness: the amended theorem applied to a `.json` file whose
contents fail to parse — the decode error is caught and the file loads
as `none`. -/
theorem get_config_from_file_raises_only_decode_error_witness :
    get_config_from_file
        ⟨fun _ => .error (), fun _ => .error (), fun _ => .error ()⟩
        ⟨true, ".json", .ok "not json"⟩
      = .ok none :=
  (get_config_from_file_raises_only_decode_error
      ⟨fun _ => .error (), fun _ => .error (), fun _ => .error ()⟩
      ⟨true, ".json", .ok "not json"⟩).1 .jsonDecodeError rfl
    (by intro hcon; cases hcon)

/-!
## Claim theorems: Cluster (C5)
-/

/-- C5 counterexample: the claim says providing exactly one of
`num_workers`/`autoscale` (the other absent) succeeds, but passing
`num_workers=0` with `autoscale` absent fails construction: `0` is falsy,
so the validator reports that no cluster is defined. -/
theorem cluster_check_num_workers_zero_counterexample :
    (ClusterValues.mk (some 0) none).num_workers.isSome = true
    ∧ (ClusterValues.mk (some 0) none).autoscale.isNone = true
    ∧ Cluster.check_only_one_of_autoscale_or_num_workers_defined ⟨some 0, none⟩
        = .error "No cluster defined. Please provide either autoscale or a num_workers" :=
  ⟨rfl, rfl, rfl⟩

/-- C5 (amended): the root validator accepts exactly the inputs where
exactly one of the two fields is truthy — `autoscale` present, or
`num_workers` present and non-zero; `num_workers=0` counts as absent. -/
theorem cluster_check_ok_iff (values : ClusterValues) :
    (∃ r, Cluster.check_only_one_of_autoscale_or_num_workers_defined values = .ok r)
    ↔ ((truthyAutoscale values.autoscale).xor (truthyNumWorkers values.num_workers)) = true := by
  unfold Cluster.check_only_one_of_autoscale_or_num_workers_defined
  cases ha : truthyAutoscale values.autoscale <;>
    cases hn : truthyNumWorkers values.num_workers <;>
    simp [ha, hn, Bool.xor]

/-!
## Claim theorems: Configuration stage check (C6)
-/

/-- C6 counterexample: the claim says a raw map with no non-empty stage
fails with the no-stage diagnostic, but the map `{"sources": []}` — whose
only stage value is the empty (falsy) list — passes the check: the source
iterates over the keys of `values` and only tests key membership, never
the values. -/
theorem stage_check_empty_stage_counterexample :
    pyTruthy (.list .nil) = false
    ∧ Configuration.check_at_least_one_stage_defined [("sources", .list .nil)]
        = .ok [("sources", .list .nil)] :=
  ⟨rfl, rfl⟩

/-- C6 (amended): `check_at_least_one_stage_defined` fails with the
"no stage definition" diagnostic exactly when none of the keys of the
candidate map is one of `sources`, `transformations`, `destinations`;
the associated values (empty or not) are irrelevant. -/
theorem stage_check_error_iff (values : List (String × PyVal)) :
    (∃ e, Configuration.check_at_least_one_stage_defined values = .error e)
    ↔ ∀ kv ∈ values, kv.1 ∉ stageNames := by
  unfold Configuration.check_at_least_one_stage_defined
  by_cases hmem : ∃ kv ∈ values, kv.1 ∈ stageNames
  · obtain ⟨kv, hkv, hs⟩ := hmem
    have hany : (values.map Prod.fst).any (fun v => stageNames.contains v) = true :=
      List.any_eq_true.mpr
        ⟨kv.1, List.mem_map.mpr ⟨kv, hkv, rfl⟩, List.elem_eq_true_of_mem hs⟩
    rw [if_neg (by rw [hany]; simp)]
    constructor
    · rintro ⟨e, he⟩
      cases he
    · intro hall
      exact absurd hs (hall kv hkv)
  · have hany : ¬ (values.map Prod.fst).any (fun v => stageNames.contains v) = true := by
      intro hcon
      rcases List.any_eq_true.mp hcon with ⟨v, hv, hc⟩
      rcases List.mem_map.mp hv with ⟨kv, hkv, rfl⟩
      exact hmem ⟨kv, hkv, List.mem_of_elem_eq_true hc⟩
    have hf := Bool.eq_false_iff.mpr hany
    rw [if_pos (by rw [hf]; rfl)]
    push_neg at hmem
    exact ⟨fun _ => hmem, fun _ => ⟨_, rfl⟩⟩

/-!
## Claim theorems: Configuration target uniqueness (C4)
-/

/-- C4: the uniqueness validator fails exactly when some target value
occurs more than once in the combined list of source targets, targets of
transformations with a truthy `sql_query`, and destination targets.  In
particular a target shared only between a transformation without a
`sql_query` (column-metadata transformation) and any other stage entity
never causes a failure, since such transformations contribute nothing to
`dltTargetValues`. -/
theorem targets_unique_check_error_iff (values : RawConfigValues) :
    (∃ e, Configuration.check_all_dlt_target_objects_are_unique values = .error e)
    ↔ ∃ t, 1 < (dltTargetValues values).count t := by
  unfold Configuration.check_all_dlt_target_objects_are_unique
  by_cases hd : ∃ t, 1 < (dltTargetValues values).count t
  · obtain ⟨t, ht⟩ := hd
    have htmem : t ∈ dltTargetValues values :=
      List.count_pos_iff.mp (by omega)
    have hne : (dltTargetValues values).dedup.filter
        (fun v => 1 < (dltTargetValues values).count v) ≠ [] := by
      intro hcon
      have : t ∈ (dltTargetValues values).dedup.filter
          (fun v => 1 < (dltTargetValues values).count v) :=
        List.mem_filter.mpr ⟨List.mem_dedup.mpr htmem, by simpa using ht⟩
      rw [hcon] at this
      cases this
    rw [if_pos (by simpa using hne)]
    exact ⟨fun _ => ⟨t, ht⟩, fun _ => ⟨_, rfl⟩⟩
  · have hnil : (dltTargetValues values).dedup.filter
        (fun v => 1 < (dltTargetValues values).count v) = [] := by
      refine List.filter_eq_nil_iff.mpr (fun v _ => ?_)
      simp only [decide_eq_true_eq]
      intro hcon
      exact hd ⟨v, hcon⟩
    rw [if_neg (by simp [hnil])]
    constructor
    · rintro ⟨e, he⟩
      cases he
    · intro hcon
      exact absurd hcon hd

/-!
## Claim theorems: the validation loop (C1)
-/

/-- C1 counterexample: the claim says a candidate failing validation
aborts only its own pipeline while the others are still validated and
returned, but feeding the loop an invalid candidate (duplicate target
`t1`) followed by a valid one yields a single propagated error: the valid
candidate — shown valid in isolation — is not validated and no set of
configurations is returned. -/
theorem validate_loop_abort_counterexample :
    validatePipelineConfigs
        [⟨none, [⟨"t1"⟩], [], [⟨"t1"⟩]⟩, ⟨none, [⟨"t2"⟩], [], []⟩]
      = .error (.duplicateTargets ["t1"])
    ∧ Configuration.validate ⟨none, [⟨"t2"⟩], [], []⟩ = .ok ⟨none, [⟨"t2"⟩], [], []⟩ :=
  ⟨rfl, rfl⟩

/-- C1 (amended): the validation loop has no per-pipeline failure
isolation: the first candidate whose validation fails aborts the whole
run — its error propagates out of `_validate_pipeline_configs`, the
candidates after it are never validated, and no list of validated
configurations is returned. -/
theorem validate_loop_aborts_at_first_failure (pre post : List RawConfigValues)
    (bad : RawConfigValues) (e : ConfigError)
    (hpre : ∀ c ∈ pre, Configuration.validate c = .ok c)
    (hbad : Configuration.validate bad = .error e) :
    validatePipelineConfigs (pre ++ bad :: post) = .error e := by
  unfold validatePipelineConfigs
  induction pre with
  | nil =>
      simp only [List.nil_append, List.mapM_cons, hbad]
      rfl
  | cons c tl ih =>
      have hc := hpre c (List.mem_cons_self _ _)
      have ih2 := ih (fun d hd => hpre d (List.mem_cons_of_mem _ hd))
      simp only [List.cons_append, List.mapM_cons, hc]
      unfold validatePipelineConfigs at ih2
      simp only [ih2]
      rfl

/-- C1 witness: the amended theorem applied to one valid candidate
followed by an invalid one. -/
theorem validate_loop_aborts_at_first_failure_witness :
    validatePipelineConfigs
        [⟨none, [⟨"t2"⟩], [], []⟩, ⟨none, [⟨"t1"⟩], [], [⟨"t1"⟩]⟩]
      = .error (.duplicateTargets ["t1"]) :=
  validate_loop_aborts_at_first_failure
    [⟨none, [⟨"t2"⟩], [], []⟩] [] ⟨none, [⟨"t1"⟩], [], [⟨"t1"⟩]⟩
    (.duplicateTargets ["t1"])
    (fun c hc => by
      rw [List.mem_singleton] at hc
      subst hc
      rfl)
    rfl


/-!
## Claim theorems: duplicate validation rules (C2)
-/

/-- C2 counterexample: the claim says an exact duplicate (same trimmed
rule, same action) passes the shared validations check, but the check
groups by trimmed rule and fails every group with more than one entry, so
two identical `("rule1", LOG)` entries are rejected. -/
theorem validations_exact_duplicate_counterexample :
    check_multiple_validations_with_same_rule
        [⟨"rule1", "LOG"⟩, ⟨"rule1", "LOG"⟩]
      = .error [("rule1", ["LOG", "LOG"])] := rfl

/-- C2 (amended): the shared validations check fails exactly when some
trimmed rule occurs in more than one entry — regardless of whether the
actions differ; lists whose trimmed rules are pairwise distinct pass. -/
theorem validations_check_error_iff (value : List Validation) :
    (∃ e, check_multiple_validations_with_same_rule value = .error e)
    ↔ ∃ r, 1 < (value.filter (fun v => validationRuleKey v = r)).length := by
  haveI : IsTotal Validation validationLE := ⟨fun a b => strle_total _ _⟩
  haveI : IsTrans Validation validationLE := ⟨fun _ _ _ => strle_trans⟩
  have hanti : ∀ x y : String, strle x y → strle y x → x = y :=
    fun _ _ => strle_antisymm
  have hsort : List.Sorted validationLE (value.insertionSort validationLE) :=
    List.sorted_insertionSort validationLE value
  have hpair : (value.insertionSort validationLE).Pairwise
      (fun a b => strle (validationRuleKey a) (validationRuleKey b)) :=
    hsort.imp (fun h => h)
  have hperm : List.Perm (value.insertionSort validationLE) value :=
    List.perm_insertionSort validationLE value
  have hfails : _get_multiple_validations_with_same_rule value ≠ [] ↔
      ∃ r, 1 < (value.filter (fun v => validationRuleKey v = r)).length := by
    unfold _get_multiple_validations_with_same_rule
    constructor
    · intro hne
      rcases List.exists_mem_of_ne_nil _ hne with ⟨G2, hG2⟩
      rcases List.mem_filter.mp hG2 with ⟨hG2m, hG2len⟩
      rcases List.mem_map.mp hG2m with ⟨G, hG, rfl⟩
      refine ⟨G.1, ?_⟩
      have hgrp := pyGroupRuns_group_eq_filter validationRuleKey strle hanti
        (value.insertionSort validationLE) hpair G hG
      have hlen : ((value.insertionSort validationLE).filter
          (fun x => validationRuleKey x = G.1)).length
          = (value.filter (fun v => validationRuleKey v = G.1)).length :=
        (hperm.filter _).length_eq
      simp only [List.length_map, decide_eq_true_eq] at hG2len
      rw [← hlen, ← hgrp]
      simpa using hG2len
    · rintro ⟨r, hr⟩
      have hlen : ((value.insertionSort validationLE).filter
          (fun x => validationRuleKey x = r)).length
          = (value.filter (fun v => validationRuleKey v = r)).length :=
        (hperm.filter _).length_eq
      have hlenS : 1 < ((value.insertionSort validationLE).filter
          (fun x => validationRuleKey x = r)).length := by
        rw [hlen]; exact hr
      have hex : ∃ x ∈ value.insertionSort validationLE, validationRuleKey x = r := by
        rcases List.exists_mem_of_ne_nil _
          (show ((value.insertionSort validationLE).filter
            (fun x => validationRuleKey x = r)) ≠ [] by
              intro hcon; rw [hcon] at hlenS; simp at hlenS) with ⟨x, hx⟩
        rcases List.mem_filter.mp hx with ⟨hxm, hxr⟩
        exact ⟨x, hxm, by simpa using hxr⟩
      rcases hex with ⟨x, hxm, hxr⟩
      have hxflat : x ∈ ((pyGroupRuns validationRuleKey
          (value.insertionSort validationLE)).map Prod.snd).flatten := by
        rw [pyGroupRuns_flatten]
        exact hxm
      rcases List.mem_flatten.mp hxflat with ⟨L, hL, hxL⟩
      rcases List.mem_map.mp hL with ⟨G, hG, rfl⟩
      have hGr : G.1 = r :=
        (pyGroupRuns_mem_key validationRuleKey _ G hG x hxL) ▸ hxr
      have hgrp := pyGroupRuns_group_eq_filter validationRuleKey strle hanti
        (value.insertionSort validationLE) hpair G hG
      intro hcon
      have hmem : (G.1, G.2.map (·.validation_action)) ∈
          ((pyGroupRuns validationRuleKey
            (value.insertionSort validationLE)).map
              (fun g => (g.1, g.2.map (·.validation_action)))).filter
            (fun g => 1 < g.2.length) := by
        refine List.mem_filter.mpr ⟨List.mem_map.mpr ⟨G, hG, rfl⟩, ?_⟩
        simp only [List.length_map, decide_eq_true_eq]
        rw [hgrp, hGr]
        exact hlenS
      rw [hcon] at hmem
      cases hmem
  constructor
  · rintro ⟨e, he⟩
    unfold check_multiple_validations_with_same_rule at he
    by_cases hcond : (!value.isEmpty
        && !(_get_multiple_validations_with_same_rule value).isEmpty) = true
    · rw [if_pos hcond] at he
      rcases Bool.and_eq_true_iff.mp hcond with ⟨_, hf⟩
      exact hfails.mp (by
        intro hcon
        rw [hcon] at hf
        simp at hf)
    · rw [if_neg hcond] at he
      cases he
  · intro hr
    have hne := hfails.mpr hr
    have hvne : value ≠ [] := by
      rcases hr with ⟨r, hlen⟩
      intro hcon
      subst hcon
      simp at hlen
    refine ⟨_get_multiple_validations_with_same_rule value, ?_⟩
    unfold check_multiple_validations_with_same_rule
    rw [if_pos]
    rw [Bool.and_eq_true_iff]
    constructor
    · simpa using hvne
    · simpa using hne

/-!
## Claim theorems: CSV transformation enrichment (C3)
-/

/-- C3 (code at the failing input): enriching a transformations list whose
single entry carries `origin`, `target` and a CSV `config` reference with
three data rows does not replace the entry with three entries carrying its
`origin`/`target` — the loop body reads `transformation_config["into"]`,
a key the entry (like the `Transformation` schema) does not have, and the
whole enrichment raises `KeyError: into` on the first row. -/
theorem enrich_transformations_into_keyerror :
    _enrich_transformations_config
        (fun _ => [{ column_order := some (.s "1") },
                   { column_order := some (.s "2") },
                   { column_order := some (.s "3") }])
        10
        [{ origin := some "o", target := some "t", config := some "cols.csv" }]
      = some (.error (.keyError "into")) := rfl


/-!
## Helper lemmas: grouping and merging (towards C9)
-/

theorem pyGroupRuns_fst_congr {α : Type} {κ : Type} [DecidableEq κ] (key : α → κ) :
    ∀ (u v : List α), u.map key = v.map key →
      (pyGroupRuns key u).map Prod.fst = (pyGroupRuns key v).map Prod.fst
  | [], [], _ => rfl
  | [], _ :: _, h => by cases h
  | _ :: _, [], h => by cases h
  | a :: tu, b :: tv, h => by
      simp only [List.map_cons, List.cons.injEq] at h
      obtain ⟨hab, htail⟩ := h
      have ih := pyGroupRuns_fst_congr key tu tv htail
      simp only [pyGroupRuns]
      cases hru : pyGroupRuns key tu with
      | nil =>
          cases hrv : pyGroupRuns key tv with
          | nil => simp [hab]
          | cons g2 rest2 => rw [hru, hrv] at ih; simp at ih
      | cons g1 rest1 =>
          cases hrv : pyGroupRuns key tv with
          | nil => rw [hru, hrv] at ih; simp at ih
          | cons g2 rest2 =>
              rw [hru, hrv] at ih
              simp only [List.map_cons, List.cons.injEq] at ih
              obtain ⟨hg, hrest⟩ := ih
              obtain ⟨k1, grp1⟩ := g1
              obtain ⟨k2, grp2⟩ := g2
              simp only at hg
              dsimp only
              by_cases hk : key a = k1
              · rw [if_pos hk, if_pos (by rw [← hab, ← hg]; exact hk)]
                simp [hg, hrest]
              · rw [if_neg hk, if_neg (by rw [← hab, ← hg]; exact hk)]
                simp [hab, hg, hrest]

theorem foldl_mergeItem_apply :
    ∀ (items : List (String × PyVal)) (acc : String → List PyVal) (k : String),
    (items.foldl mergeItem acc) k = acc k ++ contribItems items k
  | [], acc, k => by simp [contribItems]
  | kv :: tl, acc, k => by
      rw [List.foldl_cons, foldl_mergeItem_apply tl (mergeItem acc kv) k]
      unfold mergeItem contribItems
      by_cases hk : k = kv.1
      · rw [if_pos hk]
        rw [List.filter_cons_of_pos (by simp [hk])]
        simp only [List.map_cons, List.flatten_cons]
        rw [List.append_assoc]
      · rw [if_neg hk]
        rw [List.filter_cons_of_neg (by simp; intro hcon; exact hk hcon.symm)]

theorem foldl_mergeGroup_apply :
    ∀ (group : List FileCfg) (acc : String → List PyVal) (k : String),
    (group.foldl (fun a d => (cfgItems d).foldl mergeItem a) acc) k
      = acc k ++ (group.map (fun d => contribItems (cfgItems d) k)).flatten
  | [], acc, k => by simp
  | d :: tl, acc, k => by
      rw [List.foldl_cons, foldl_mergeGroup_apply tl _ k, foldl_mergeItem_apply]
      simp [List.append_assoc]

theorem mergeGroupAcc_apply (group : List FileCfg) (k : String) :
    mergeGroupAcc group k
      = (group.map (fun d => contribItems (cfgItems d) k)).flatten := by
  unfold mergeGroupAcc
  rw [foldl_mergeGroup_apply]
  rfl

theorem PyList.toList_ofList : ∀ (L : List PyVal), (PyList.ofList L).toList = L
  | [] => rfl
  | v :: tl => by
      simp only [PyList.ofList, PyList.toList]
      rw [PyList.toList_ofList tl]


/-!
## Claim theorems: grouping order-independence and idempotence (C9)
-/

/-- C9: the group-and-merge step is order-independent and deterministic:
permuting the list of enriched per-file maps leaves the sequence of
(target_schema_name, pipeline_name) identities of the produced candidates
unchanged, and for every group identity and every key the multiset of
elements of the merged stage value is unchanged (hence the sets coincide);
and running the step again over the same unchanged input yields identical
output. -/
theorem group_pipeline_configs_order_independent (l l' : List FileCfg)
    (h : List.Perm l l') :
    ((_group_pipeline_configs l).map mergedIdentity
        = (_group_pipeline_configs l').map mergedIdentity)
    ∧ (∀ gk k,
        (findGroup (_group_pipeline_configs l) gk).map (fun m => pvMultiset (m k))
          = (findGroup (_group_pipeline_configs l') gk).map (fun m => pvMultiset (m k)))
    ∧ _group_pipeline_configs l = _group_pipeline_configs l := by
  haveI : IsTotal FileCfg cfgLE := ⟨fun a b => pairle_total _ _⟩
  haveI : IsTrans FileCfg cfgLE := ⟨fun _ _ _ => pairle_trans⟩
  haveI : IsAntisymm (String × String) pairle := ⟨fun _ _ => pairle_antisymm⟩
  have hanti : ∀ x y : String × String, pairle x y → pairle y x → x = y :=
    fun _ _ => pairle_antisymm
  have hsortS : List.Sorted cfgLE (l.insertionSort cfgLE) :=
    List.sorted_insertionSort cfgLE l
  have hsortS2 : List.Sorted cfgLE (l'.insertionSort cfgLE) :=
    List.sorted_insertionSort cfgLE l'
  have hpairS : (l.insertionSort cfgLE).Pairwise
      (fun a b => pairle (cfgKey a) (cfgKey b)) := hsortS.imp (fun hh => hh)
  have hpairS2 : (l'.insertionSort cfgLE).Pairwise
      (fun a b => pairle (cfgKey a) (cfgKey b)) := hsortS2.imp (fun hh => hh)
  have hpermS : List.Perm (l.insertionSort cfgLE) l :=
    List.perm_insertionSort cfgLE l
  have hpermS2 : List.Perm (l'.insertionSort cfgLE) l' :=
    List.perm_insertionSort cfgLE l'
  have hpermSS : List.Perm (l.insertionSort cfgLE) (l'.insertionSort cfgLE) :=
    (hpermS.trans h).trans hpermS2.symm
  have hkeys : (l.insertionSort cfgLE).map cfgKey
      = (l'.insertionSort cfgLE).map cfgKey := by
    have hsorted1 : List.Sorted pairle ((l.insertionSort cfgLE).map cfgKey) :=
      List.pairwise_map.mpr hpairS
    have hsorted2 : List.Sorted pairle ((l'.insertionSort cfgLE).map cfgKey) :=
      List.pairwise_map.mpr hpairS2
    exact List.eq_of_perm_of_sorted (hpermSS.map cfgKey) hsorted1 hsorted2
  have hfst : (pyGroupRuns cfgKey (l.insertionSort cfgLE)).map Prod.fst
      = (pyGroupRuns cfgKey (l'.insertionSort cfgLE)).map Prod.fst :=
    pyGroupRuns_fst_congr cfgKey _ _ hkeys
  refine ⟨?_, ?_, rfl⟩
  · unfold _group_pipeline_configs
    rw [List.map_map, List.map_map]
    have hfun : (mergedIdentity ∘ fun g : (String × String) × List FileCfg =>
        mergedDict g.1.1 g.1.2 g.2)
        = ((fun p : String × String =>
            ((PyVal.str p.1 : PyVal), (PyVal.str p.2 : PyVal))) ∘ Prod.fst) := by
      funext g
      rfl
    rw [hfun, ← List.map_map, ← List.map_map, hfst]
  · intro gk k
    unfold _group_pipeline_configs findGroup
    rw [List.find?_map, List.find?_map]
    have hpred : ((fun m => pvIsStrEq (m "target_schema_name") gk.1
          && pvIsStrEq (m "pipeline_name") gk.2) ∘
        (fun g : (String × String) × List FileCfg =>
          mergedDict g.1.1 g.1.2 g.2))
        = (fun g : (String × String) × List FileCfg =>
            g.1.1 == gk.1 && g.1.2 == gk.2) := by
      funext g
      rfl
    rw [hpred]
    cases hfind : List.find? (fun g => g.1.1 == gk.1 && g.1.2 == gk.2)
        (pyGroupRuns cfgKey (l.insertionSort cfgLE)) with
    | none =>
        have hnone2 : List.find? (fun g => g.1.1 == gk.1 && g.1.2 == gk.2)
            (pyGroupRuns cfgKey (l'.insertionSort cfgLE)) = none := by
          rw [List.find?_eq_none] at hfind ⊢
          intro g2 hg2 hQ
          have hmem : g2.1 ∈ (pyGroupRuns cfgKey (l'.insertionSort cfgLE)).map Prod.fst :=
            List.mem_map.mpr ⟨g2, hg2, rfl⟩
          rw [← hfst] at hmem
          rcases List.mem_map.mp hmem with ⟨g1, hg1, hfst1⟩
          refine hfind g1 hg1 ?_
          rw [← hfst1] at hQ
          exact hQ
        rw [hnone2]
    | some G =>
        have hQ := List.find?_some hfind
        have hGmem := List.mem_of_find?_eq_some hfind
        have hG1 : G.1 = gk := by
          rcases Bool.and_eq_true_iff.mp hQ with ⟨h1, h2⟩
          exact Prod.ext (by simpa using h1) (by simpa using h2)
        have hsome2 : ∃ g2 ∈ pyGroupRuns cfgKey (l'.insertionSort cfgLE),
            (g2.1.1 == gk.1 && g2.1.2 == gk.2) = true := by
          have hmem : G.1 ∈ (pyGroupRuns cfgKey (l'.insertionSort cfgLE)).map Prod.fst := by
            rw [← hfst]
            exact List.mem_map.mpr ⟨G, hGmem, rfl⟩
          rcases List.mem_map.mp hmem with ⟨g2, hg2, hfst2⟩
          refine ⟨g2, hg2, ?_⟩
          rw [hfst2, hG1]
          simp
        rcases Option.isSome_iff_exists.mp (List.find?_isSome.mpr hsome2) with ⟨G2, hfind2⟩
        have hQ2 := List.find?_some hfind2
        have hG2mem := List.mem_of_find?_eq_some hfind2
        have hG21 : G2.1 = gk := by
          rcases Bool.and_eq_true_iff.mp hQ2 with ⟨h1, h2⟩
          exact Prod.ext (by simpa using h1) (by simpa using h2)
        rw [hfind2]
        simp only [Option.map_some']
        congr 1
        have hgrp1 : G.2 = (l.insertionSort cfgLE).filter (fun x => cfgKey x = G.1) :=
          pyGroupRuns_group_eq_filter cfgKey pairle hanti _ hpairS G hGmem
        have hgrp2 : G2.2 = (l'.insertionSort cfgLE).filter (fun x => cfgKey x = G2.1) :=
          pyGroupRuns_group_eq_filter cfgKey pairle hanti _ hpairS2 G2 hG2mem
        have hp : List.Perm G.2 G2.2 := by
          rw [hgrp1, hgrp2, hG1, hG21]
          exact hpermSS.filter _
        by_cases hk1 : k = "target_schema_name"
        · subst hk1
          rw [show mergedDict G.1.1 G.1.2 G.2 "target_schema_name"
              = .str G.1.1 from rfl,
            show mergedDict G2.1.1 G2.1.2 G2.2 "target_schema_name"
              = .str G2.1.1 from rfl, hG1, hG21]
        · by_cases hk2 : k = "pipeline_name"
          · subst hk2
            rw [show mergedDict G.1.1 G.1.2 G.2 "pipeline_name"
                = .str G.1.2 from rfl,
              show mergedDict G2.1.1 G2.1.2 G2.2 "pipeline_name"
                = .str G2.1.2 from rfl, hG1, hG21]
          · unfold mergedDict
            rw [if_neg hk1, if_neg hk2, if_neg hk1, if_neg hk2]
            unfold pvMultiset
            dsimp only
            rw [PyList.toList_ofList, PyList.toList_ofList]
            rw [mergeGroupAcc_apply, mergeGroupAcc_apply]
            exact Multiset.coe_eq_coe.mpr
              (List.Perm.flatten (hp.map (fun d => contribItems (cfgItems d) k)))

/-- C9 witness: the theorem applied to a two-element file list and its
transposition. -/
theorem group_pipeline_configs_order_independent_witness :
    (_group_pipeline_configs
        [⟨"s", "p", [("sources", .list (.cons (.str "a") .nil))]⟩,
         ⟨"s", "q", []⟩]).map mergedIdentity
      = (_group_pipeline_configs
          [⟨"s", "q", []⟩,
           ⟨"s", "p", [("sources", .list (.cons (.str "a") .nil))]⟩]).map mergedIdentity :=
  (group_pipeline_configs_order_independent _ _ (List.Perm.swap _ _ [])).1

end Pushcart
